import Mathlib

set_option maxRecDepth 8000

namespace MPM3D

/-!
Shallow embedding of the MPM 3D solver (`mpm_3d_starter.py`) over exact
rationals, together with proofs and refutations of the specification's
claims about it.

Modelling conventions:
* Floating point arithmetic is embedded as exact arithmetic on `ℚ`;
  positions and velocities are triples `ℚ × ℚ × ℚ`, 3×3 matrices are
  `Matrix (Fin 3) (Fin 3) ℚ`.
* Taichi's `cast(int)` on floats truncates toward zero; it is embedded
  as `castInt` below (`Int.tdiv` of numerator by denominator).
* `ti.svd` and `ti.exp` are numerical routines with no exact rational
  counterpart; functions that call them take the decomposition
  (respectively the exponential map) as an explicit oracle argument,
  and theorems quantify over those oracles.
* The per-particle bodies of the `substep_*` kernels are embedded as
  functions of one particle (the loops over particles / grid nodes are
  data-parallel with independent iterations, except for the P2G scatter,
  whose mass accumulation is embedded as `substep_p2g_mass` over a list
  of particles).
* Grid fields are embedded as functions on `ℤ × ℤ × ℤ`; the real arrays
  are fixed-size `[0, n_grid)^3`, which the theorems account for through
  explicit in-bounds hypotheses.
-/

/-! ## Simulation constants (lines 7-22 of the source) -/

/-- `dim = 3`. -/
def dim : ℕ := 3

/-- `quality = 4`. -/
def quality : ℕ := 4

/-- `n_particles = 8192 * quality**dim`. -/
def n_particles : ℕ := 8192 * quality ^ dim

/-- `n_grid = 32 * quality`. -/
def n_grid : ℕ := 32 * quality

/-- `dt = 1e-4`. -/
def dt : ℚ := 1e-4

/-- `dx = 1.0 / n_grid`. -/
def dx : ℚ := 1 / (n_grid : ℚ)

/-- `inv_dx = 1.0 / dx`. -/
def inv_dx : ℚ := 1 / dx

/-- `p_vol = (dx * 0.5)**2`. -/
def p_vol : ℚ := (dx * 0.5) ^ 2

/-- `p_rho = 1`. -/
def p_rho : ℚ := 1

/-- `p_mass = p_vol * p_rho`. -/
def p_mass : ℚ := p_vol * p_rho

/-- Young's modulus `E = 0.1e4`. -/
def E : ℚ := 0.1e4

/-- Poisson's ratio `nu = 0.2`. -/
def nu : ℚ := 0.2

/-- `mu_0 = E / (2 * (1 + nu))`. -/
def mu_0 : ℚ := E / (2 * (1 + nu))

/-- `lambda_0 = E * nu / ((1 + nu) * (1 - 2 * nu))`. -/
def lambda_0 : ℚ := E * nu / ((1 + nu) * (1 - 2 * nu))

/-- Boundary thickness `bound = 3`, used in integer grid-index comparisons. -/
def bound : ℤ := 3

/-- Material enumeration `WATER = 0`. -/
def WATER : ℤ := 0

/-- Material enumeration `JELLY = 1`. -/
def JELLY : ℤ := 1

/-- Material enumeration `SNOW = 2`. -/
def SNOW : ℤ := 2

/-! ## Interpolation kernel (lines 56-59 and 124-126) -/

/-- Taichi's float-to-int `cast(int)`: truncation toward zero. -/
def castInt (q : ℚ) : ℤ := Int.tdiv q.num (q.den : ℤ)

/-- One component of `base = (x[p] * inv_dx - 0.5).cast(int)`. -/
def baseOf (q : ℚ) : ℤ := castInt (q * inv_dx - 0.5)

/-- One component of `fx = x[p] * inv_dx - base.cast(float)`. -/
def fxOf (q : ℚ) : ℚ := q * inv_dx - (baseOf q : ℚ)

/-- The quadratic B-spline weights of `substep_p2g` (line 59):
`w = [0.5 * (1.5 - fx)**2, 0.75 - (fx - 1)**2, 0.5 * (fx - 0.5)**2]`. -/
def wP2G : ℕ → ℚ → ℚ
  | 0, fx => 0.5 * (1.5 - fx) ^ 2
  | 1, fx => 0.75 - (fx - 1) ^ 2
  | _, fx => 0.5 * (fx - 0.5) ^ 2

/-- The quadratic B-spline weights of `substep_g2p` (line 126):
`w = [0.5 * (1.5 - fx)**2, 0.75 - (fx - 1.0)**2, 0.5 * (fx - 0.5)**2]`. -/
def wG2P : ℕ → ℚ → ℚ
  | 0, fx => 0.5 * (1.5 - fx) ^ 2
  | 1, fx => 0.75 - (fx - 1.0) ^ 2
  | _, fx => 0.5 * (fx - 0.5) ^ 2

/-! ## Grid update (`substep_grid`, lines 100-118) -/

/-- The two boundary clamps of `substep_grid` for one axis: the first
zeroes a negative component within `bound` cells of the lower face
(`I < bound`), the second zeroes a positive component strictly beyond
`n_grid - bound` (`I > n_grid - bound`). -/
def clampAxis (i : ℤ) (a : ℚ) : ℚ :=
  let a1 := if i < bound ∧ a < 0 then 0 else a
  if (n_grid : ℤ) - bound < i ∧ 0 < a1 then 0 else a1

/-- Body of `substep_grid` for one grid node `I` holding accumulated mass
`m` and momentum `mom`: if `m > 0`, convert momentum to velocity, apply
gravity to the y component, then apply the boundary clamps; otherwise the
node is left untouched. -/
def substep_grid_node (gravity : ℚ) (I : ℤ × ℤ × ℤ) (m : ℚ)
    (mom : ℚ × ℚ × ℚ) : ℚ × ℚ × ℚ :=
  if 0 < m then
    let v0 := 1 / m * mom.1
    let v1 := 1 / m * mom.2.1 + dt * gravity
    let v2 := 1 / m * mom.2.2
    (clampAxis I.1 v0, clampAxis I.2.1 v1, clampAxis I.2.2 v2)
  else mom

/-- `substep_zero_out` grid velocity: every node reset to the zero vector. -/
def substep_zero_out_v : ℤ × ℤ × ℤ → ℚ × ℚ × ℚ := fun _ => (0, 0, 0)

/-- `substep_zero_out` grid mass: every node reset to `0`. -/
def substep_zero_out_m : ℤ × ℤ × ℤ → ℚ := fun _ => 0

/-! ## Particle state -/

/-- 3×3 rational matrix. -/
abbrev Mat3 := Matrix (Fin 3) (Fin 3) ℚ

/-- One particle's simulation state (the per-index slice of the fields
`x`, `v`, `C`, `F`, `Jp`, `materials`, `is_used`; the cosmetic color
fields belong to the excluded rendering collaborator). -/
structure Particle where
  x : ℚ × ℚ × ℚ
  v : ℚ × ℚ × ℚ
  C : Mat3
  F : Mat3
  Jp : ℚ
  material : ℤ
  used : Bool

/-! ## P2G constitutive update (`substep_p2g`, lines 62-89) -/

/-- One iteration `d` of the singular-value loop (lines 72-79), acting on
the accumulator `(sig, Jp, J)`:
`new_sig = sig[d, d]`, clamped to `[1 - 2.5e-2, 1 + 4.5e-3]` for SNOW;
`Jp *= sig[d, d] / new_sig`; `sig[d, d] = new_sig`; `J *= new_sig`. -/
def plasticityStep (mat : ℤ) (acc : Mat3 × ℚ × ℚ) (d : Fin 3) :
    Mat3 × ℚ × ℚ :=
  let sig := acc.1
  let new_sig :=
    if mat = SNOW then min (max (sig d d) (1 - 2.5e-2)) (1 + 4.5e-3)
    else sig d d
  (Matrix.of fun i j => if i = d ∧ j = d then new_sig else sig i j,
   acc.2.1 * (sig d d / new_sig),
   acc.2.2 * new_sig)

/-- The full `for d in ti.static(range(dim))` loop, folding
`plasticityStep` over `d = 0, 1, 2` starting from `(sig, Jp, 1)`. -/
def plasticityFold (mat : ℤ) (sig : Mat3) (jp : ℚ) : Mat3 × ℚ × ℚ :=
  (List.finRange 3).foldl (plasticityStep mat) (sig, jp, 1)

/-- The per-singular-value replacement performed by the loop:
clamped for SNOW, unchanged otherwise. -/
def newSigma (mat : ℤ) (s : ℚ) : ℚ :=
  if mat = SNOW then min (max s (1 - 2.5e-2)) (1 + 4.5e-3) else s

/-- Body of the `substep_p2g` constitutive branch (lines 62-89) for one
particle.  `hexp` is the numerical exponential `ti.exp` and `svd` the
numerical decomposition `ti.svd`, both supplied as oracles.  Returns the
updated particle (fields `F` and `Jp` may change) and the `affine`
matrix scattered to the grid. -/
def substep_p2g_update (hexp : ℚ → ℚ) (svd : Mat3 → Mat3 × Mat3 × Mat3)
    (p : Particle) : Particle × Mat3 :=
  if p.material ≠ WATER then
    let F1 := ((1 : Mat3) + dt • p.C) * p.F
    let h0 := hexp (10 * (1 - p.Jp))
    let h := if p.material = JELLY then 0.3 else h0
    let mu := mu_0 * h
    let la := lambda_0 * h
    let usv := svd F1
    let U := usv.1
    let sig := usv.2.1
    let V := usv.2.2
    let r := plasticityFold p.material sig p.Jp
    let sig2 := r.1
    let Jp2 := r.2.1
    let J := r.2.2
    let F2 := if p.material = SNOW then U * sig2 * V.transpose else F1
    let stress0 :=
      (2 * mu) • ((F2 - U * V.transpose) * F2.transpose) +
        (la * J * (J - 1)) • (1 : Mat3)
    let stress := (-dt * p_vol * 4 * inv_dx * inv_dx) • stress0
    let affine := stress + p_mass • p.C
    ({ p with F := F2, Jp := Jp2 }, affine)
  else
    let stress := -dt * 4 * E * p_vol * (p.Jp - 1) * inv_dx * inv_dx
    let affine := stress • (1 : Mat3) + p_mass • p.C
    (p, affine)

/-- The `substep_p2g` body for one particle, including the `is_used`
guard: unused particles are skipped entirely. -/
def substep_p2g_point (hexp : ℚ → ℚ) (svd : Mat3 → Mat3 × Mat3 × Mat3)
    (p : Particle) : Particle × Mat3 :=
  if p.used then substep_p2g_update hexp svd p else (p, 0)

/-! ## G2P (`substep_g2p`, lines 120-140) -/

/-- View a coordinate triple as a `Fin 3`-indexed vector. -/
def tripleGet (t : ℚ × ℚ × ℚ) : Fin 3 → ℚ := ![t.1, t.2.1, t.2.2]

/-- `g_v.outer_product(dpos)` as a 3×3 matrix. -/
def outerProd (a b : ℚ × ℚ × ℚ) : Mat3 :=
  Matrix.of fun i j => tripleGet a i * tripleGet b j

/-- Body of `substep_g2p` for one particle, reading the post-boundary
grid velocity field `gv`.  Gathers `new_v` and `new_C` over the 3×3×3
neighborhood, commits them, advects the position by `x += dt * v`, and
updates `Jp *= 1 + dt * new_C.trace()`.  No clamping or reporting is
applied to the advected position. -/
def substep_g2p_point (gv : ℤ × ℤ × ℤ → ℚ × ℚ × ℚ) (p : Particle) :
    Particle :=
  if p.used then
    let b0 := baseOf p.x.1
    let b1 := baseOf p.x.2.1
    let b2 := baseOf p.x.2.2
    let f0 := fxOf p.x.1
    let f1 := fxOf p.x.2.1
    let f2 := fxOf p.x.2.2
    let new_v : ℚ × ℚ × ℚ :=
      ∑ i in Finset.range 3, ∑ j in Finset.range 3, ∑ k in Finset.range 3,
        (wG2P i f0 * wG2P j f1 * wG2P k f2) •
          gv (b0 + (i : ℤ), b1 + (j : ℤ), b2 + (k : ℤ))
    let new_C : Mat3 :=
      ∑ i in Finset.range 3, ∑ j in Finset.range 3, ∑ k in Finset.range 3,
        (4 * inv_dx * (wG2P i f0 * wG2P j f1 * wG2P k f2)) •
          outerProd (gv (b0 + (i : ℤ), b1 + (j : ℤ), b2 + (k : ℤ)))
            ((i : ℚ) - f0, (j : ℚ) - f1, (k : ℚ) - f2)
    { p with
      v := new_v
      C := new_C
      x := (p.x.1 + dt * new_v.1, p.x.2.1 + dt * new_v.2.1,
            p.x.2.2 + dt * new_v.2.2)
      Jp := p.Jp * (1 + dt * Matrix.trace new_C) }
  else p

/-! ## P2G mass scatter (`substep_p2g`, lines 92-98, mass accumulation) -/

/-- The grid node set `[0, n_grid)^3` of the fixed-size grid arrays. -/
def gridBox : Finset (ℤ × ℤ × ℤ) :=
  Finset.Icc 0 ((n_grid : ℤ) - 1) ×ˢ
    (Finset.Icc 0 ((n_grid : ℤ) - 1) ×ˢ Finset.Icc 0 ((n_grid : ℤ) - 1))

/-- The mass one particle at position `pos` scatters onto grid node `n`:
the sum over the 27 neighbor offsets of
`weight * p_mass = w[i][0] * w[j][1] * w[k][2] * p_mass` at node
`base + offset` (line 98).  The mass line of the scatter does not depend
on the particle's material or on the `affine` matrix. -/
def massContrib (pos : ℚ × ℚ × ℚ) (n : ℤ × ℤ × ℤ) : ℚ :=
  ∑ i in Finset.range 3, ∑ j in Finset.range 3, ∑ k in Finset.range 3,
    if n = (baseOf pos.1 + (i : ℤ), baseOf pos.2.1 + (j : ℤ),
            baseOf pos.2.2 + (k : ℤ)) then
      wP2G i (fxOf pos.1) * wP2G j (fxOf pos.2.1) * wP2G k (fxOf pos.2.2) *
        p_mass
    else 0

/-- Grid mass after `substep_zero_out` followed by `substep_p2g` over the
given particles: starting from the zeroed grid, every used particle adds
its `massContrib`; unused particles are skipped by the `is_used` guard. -/
def substep_p2g_mass : List Particle → (ℤ × ℤ × ℤ → ℚ)
  | [] => substep_zero_out_m
  | p :: ps => fun n =>
      substep_p2g_mass ps n + if p.used then massContrib p.x n else 0

/-- All 27 neighbor nodes `base + offset`, `offset ∈ {0,1,2}^3`, of a
particle at `pos` lie inside `[0, n_grid)^3`. -/
def nbhdInBounds (pos : ℚ × ℚ × ℚ) : Prop :=
  (0 ≤ baseOf pos.1 ∧ baseOf pos.1 + 2 ≤ (n_grid : ℤ) - 1) ∧
    (0 ≤ baseOf pos.2.1 ∧ baseOf pos.2.1 + 2 ≤ (n_grid : ℤ) - 1) ∧
    (0 ≤ baseOf pos.2.2 ∧ baseOf pos.2.2 + 2 ≤ (n_grid : ℤ) - 1)

instance (pos : ℚ × ℚ × ℚ) : Decidable (nbhdInBounds pos) := by
  unfold nbhdInBounds
  infer_instance

/-! ## Volume initialization (lines 145-203) -/

/-- `CubeVolume.__init__`: an axis-aligned cuboid with its material tag;
`volume = size.x * size.y * size.z`. -/
structure CubeVolume where
  minimum : ℚ × ℚ × ℚ
  size : ℚ × ℚ × ℚ
  material : ℤ

/-- `self.volume = self.size.x * self.size.y * self.size.z`. -/
def CubeVolume.volume (c : CubeVolume) : ℚ :=
  c.size.1 * c.size.2.1 * c.size.2.2

/-- An entry of the `vols` list passed to `init_vols`.  `cube` is a
`CubeVolume`; `other` models an object of any other class carrying a
`volume` attribute (any non-cuboid shape), which fails the
`isinstance(v, CubeVolume)` test and triggers `raise Exception("???")`. -/
inductive Volume where
  | cube (c : CubeVolume)
  | other (volume : ℚ)

/-- `v.volume`, as read by the `total_vol` accumulation loop. -/
def Volume.volume : Volume → ℚ
  | .cube c => c.volume
  | .other w => w

/-- Whether `isinstance(v, CubeVolume)` holds. -/
def Volume.isCube : Volume → Bool
  | .cube _ => true
  | .other _ => false

/-- `set_all_unused` (lines 171-181): every particle slot below the
budget `N` is marked unused, parked at the far-away sentinel position,
and has `Jp`, `F`, `C`, `v` reset.  Materials are not touched. -/
def set_all_unused (N : ℕ) (st : ℕ → Particle) : ℕ → Particle :=
  fun p =>
    if p < N then
      { st p with
        used := false
        x := (533799, 533799, 533799)
        Jp := 1
        F := 1
        C := 0
        v := (0, 0, 0) }
    else st p

/-- `init_cube_vol` (lines 154-168) with random source `rng`
(`rng i` models the three `ti.random()` draws for particle `i`): every
particle index in `[first_par, last_par)` is seeded uniformly inside the
cuboid, with `Jp = 1`, `F = I`, `v = 0`, the spec's material, and
`is_used = 1`.  `C` is not reset here. -/
def init_cube_vol (rng : ℕ → ℚ × ℚ × ℚ) (first_par last_par : ℤ)
    (c : CubeVolume) (st : ℕ → Particle) : ℕ → Particle :=
  fun i =>
    if first_par ≤ (i : ℤ) ∧ (i : ℤ) < last_par then
      { st i with
        x := ((rng i).1 * c.size.1 + c.minimum.1,
              (rng i).2.1 * c.size.2.1 + c.minimum.2.1,
              (rng i).2.2 * c.size.2.2 + c.minimum.2.2)
        Jp := 1
        F := 1
        v := (0, 0, 0)
        material := c.material
        used := true }
    else st i

/-- The `for i, v in enumerate(vols)` loop of `init_vols` (lines
190-203).  Processes the remaining specs with the running particle
cursor `next_p`; a cube spec receives
`par_count = int(v.volume / total_vol * n_particles)` particles —
overridden to all remaining particles when it is the last spec — and is
seeded via `init_cube_vol`; a non-cube spec raises, which abandons the
loop with the state mutated so far.  Returns the final particle state,
the list of `(next_p, par_count)` allocations actually passed to
`init_cube_vol`, and whether the exception was raised. -/
def init_vols_go (rng : ℕ → ℚ × ℚ × ℚ) (total_vol : ℚ) (N : ℤ) :
    List Volume → ℤ → (ℕ → Particle) →
      (ℕ → Particle) × List (ℤ × ℤ) × Bool
  | [], _, st => (st, [], false)
  | .cube c :: rest, next_p, st =>
      let par_count :=
        if rest.isEmpty then N - next_p
        else castInt (c.volume / total_vol * (N : ℚ))
      let r := init_vols_go rng total_vol N rest (next_p + par_count)
        (init_cube_vol rng next_p (next_p + par_count) c st)
      (r.1, (next_p, par_count) :: r.2.1, r.2.2)
  | .other _ :: _, _, st => (st, [], true)

/-- `init_vols(vols)` (lines 184-203): reset every slot via
`set_all_unused`, accumulate `total_vol`, then run the seeding loop.
The particle budget `N` generalizes the source's fixed `n_particles`. -/
def init_vols (rng : ℕ → ℚ × ℚ × ℚ) (N : ℕ) (vols : List Volume)
    (st : ℕ → Particle) : (ℕ → Particle) × List (ℤ × ℤ) × Bool :=
  init_vols_go rng ((vols.map Volume.volume).sum) (N : ℤ) vols 0
    (set_all_unused N st)

/-- The ranges `(first, count)` partition `[s, e)` in order: each range
starts where the previous one ended, every count is nonnegative, and the
last range ends exactly at `e`. -/
def isPartition : ℤ → List (ℤ × ℤ) → ℤ → Prop
  | s, [], e => s = e
  | s, r :: rs, e => r.1 = s ∧ 0 ≤ r.2 ∧ isPartition (s + r.2) rs e

/-- The per-spec particle counts as the specification words them: every
spec but the last receives the floor of its proportional share
`volume / total * N`, and the last spec absorbs the remainder. -/
def claimCounts (total : ℚ) (N : ℤ) : List Volume → List ℤ
  | [] => []
  | v :: vs =>
      ((v :: vs).dropLast.map fun u => ⌊u.volume / total * (N : ℚ)⌋) ++
        [N - (((v :: vs).dropLast.map fun u =>
          ⌊u.volume / total * (N : ℚ)⌋).sum)]

/-- The effect of the `init_vols` loop on a prefix of cube specs that
are never last in the full list (the loop's behavior, per the
specification's wording, for the specs preceding an unsupported one):
each cube seeds `int(volume / total * N)` particles from the running
cursor, and non-cube entries stop the seeding. -/
def seedCubes (rng : ℕ → ℚ × ℚ × ℚ) (total : ℚ) (N : ℤ) :
    List Volume → ℤ → (ℕ → Particle) → (ℕ → Particle)
  | [], _, st => st
  | Volume.cube c :: rest, next_p, st =>
      let cnt := castInt (c.volume / total * (N : ℚ))
      seedCubes rng total N rest (next_p + cnt)
        (init_cube_vol rng next_p (next_p + cnt) c st)
  | Volume.other _ :: _, _, st => st

/-- The boundary-containment property exactly as claim C1 words it: after
the momentum step, a node (with accumulated mass, hence processed) whose
index on some axis lies in `[0, bound)` or in `[n_grid - bound, n_grid)`
has no velocity component on that axis pointing further outward. -/
def boundaryClaimC1 : Prop :=
  ∀ (g : ℚ) (I : ℤ × ℤ × ℤ) (m : ℚ) (mom : ℚ × ℚ × ℚ), 0 < m →
    ((0 ≤ I.1 ∧ I.1 < bound) → 0 ≤ (substep_grid_node g I m mom).1) ∧
    (((n_grid : ℤ) - bound ≤ I.1 ∧ I.1 < (n_grid : ℤ)) →
      (substep_grid_node g I m mom).1 ≤ 0) ∧
    ((0 ≤ I.2.1 ∧ I.2.1 < bound) → 0 ≤ (substep_grid_node g I m mom).2.1) ∧
    (((n_grid : ℤ) - bound ≤ I.2.1 ∧ I.2.1 < (n_grid : ℤ)) →
      (substep_grid_node g I m mom).2.1 ≤ 0) ∧
    ((0 ≤ I.2.2 ∧ I.2.2 < bound) → 0 ≤ (substep_grid_node g I m mom).2.2) ∧
    (((n_grid : ℤ) - bound ≤ I.2.2 ∧ I.2.2 < (n_grid : ℤ)) →
      (substep_grid_node g I m mom).2.2 ≤ 0)

/-- A concrete SNOW particle, combined with identity oracles, used to
witness C7. -/
def wSnowP : Particle :=
  { x := (0, 0, 0), v := (0, 0, 0), C := 0, F := 1, Jp := 1,
    material := SNOW, used := true }

/-- Identity SVD oracle: every matrix reported as `1 * 1 * 1ᵀ`. -/
def idSvd : Mat3 → Mat3 × Mat3 × Mat3 := fun _ => (1, 1, 1)

/-- Constant exponential oracle. -/
def oneExp : ℚ → ℚ := fun _ => 1

/-- A concrete WATER particle used to witness C8. -/
def wWaterP : Particle :=
  { x := (1/2, 1/2, 1/2), v := (0, 0, 0), C := 0, F := 1, Jp := 1,
    material := WATER, used := true }

/-- A concrete JELLY particle used to witness C10. -/
def wJellyP : Particle :=
  { x := (0, 0, 0), v := (0, 0, 0), C := 0, F := 1, Jp := 2,
    material := JELLY, used := true }

/-- A used particle at the domain center, whose neighborhood is interior. -/
def wCenterP : Particle :=
  { x := (1/2, 1/2, 1/2), v := (0, 0, 0), C := 0, F := 1, Jp := 1,
    material := WATER, used := true }

/-- A post-boundary grid velocity field blowing every node strongly in
the negative x direction; the G2P gather is linear in the grid values,
so the gathered `new_v` equals this constant. -/
def escGrid : ℤ × ℤ × ℤ → ℚ × ℚ × ℚ := fun _ => (-1000000, 0, 0)

/-- The Water/Snow/Jelly preset's cube list (lines 228-235), used to
witness C6. -/
def wVols : List Volume :=
  [Volume.cube ⟨(0.6, 0.05, 0.6), (0.25, 0.25, 0.25), WATER⟩,
   Volume.cube ⟨(0.35, 0.35, 0.35), (0.25, 0.25, 0.25), SNOW⟩,
   Volume.cube ⟨(0.05, 0.6, 0.05), (0.25, 0.25, 0.25), JELLY⟩]

/-- A fixed random source for witnesses. -/
def wRng : ℕ → ℚ × ℚ × ℚ := fun _ => (0, 0, 0)

/-- A unit cube of WATER used in the C2 scenario. -/
def cexCube : CubeVolume := ⟨(0, 0, 0), (1, 1, 1), WATER⟩

/-- A unit cube of JELLY used in the C2 scenario. -/
def cexCube2 : CubeVolume := ⟨(0, 0, 0), (1, 1, 1), JELLY⟩

/-- A cube spec, then an unsupported spec of volume 2, then another
cube spec: `init_vols` seeds the first cube and then raises. -/
def cexVols : List Volume :=
  [Volume.cube cexCube, Volume.other 2, Volume.cube cexCube2]

/-- A prior valid state: every slot seeded as JELLY. -/
def cexPrior : ℕ → Particle := fun _ =>
  { x := (1/4, 1/4, 1/4), v := (0, 0, 0), C := 0, F := 1, Jp := 1,
    material := JELLY, used := true }

/-! ## Lemmas -/

lemma wP2G_add_sum (fx : ℚ) : wP2G 0 fx + wP2G 1 fx + wP2G 2 fx = 1 := by
  simp only [wP2G]
  ring

lemma wP2G_eq_wG2P : ∀ (i : ℕ) (fx : ℚ), wP2G i fx = wG2P i fx := by
  intro i fx
  match i with
  | 0 => rfl
  | 1 =>
    show 0.75 - (fx - 1) ^ 2 = 0.75 - (fx - 1.0) ^ 2
    norm_num
  | Nat.succ (Nat.succ n) => rfl

lemma wP2G_range_sum (fx : ℚ) : ∑ i in Finset.range 3, wP2G i fx = 1 := by
  rw [Finset.sum_range_succ, Finset.sum_range_succ, Finset.sum_range_succ,
    Finset.sum_range_zero]
  rw [zero_add]
  exact wP2G_add_sum fx

lemma clampAxis_lower {i : ℤ} (a : ℚ) (h : i < bound) : 0 ≤ clampAxis i a := by
  simp only [clampAxis]
  split_ifs with h1 h2 h3
  · exact le_rfl
  · exact le_rfl
  · exact le_rfl
  · exact le_of_not_lt fun hlt => h1 ⟨h, hlt⟩

lemma clampAxis_upper {i : ℤ} (a : ℚ) (h : (n_grid : ℤ) - bound < i) :
    clampAxis i a ≤ 0 := by
  have hi : ¬ i < bound := by
    have hb : (bound : ℤ) ≤ (n_grid : ℤ) - bound := by
      norm_num [bound, n_grid, quality]
    omega
  simp only [clampAxis]
  split_ifs with h1 h2 h3
  · exact absurd h1.1 hi
  · exact absurd h1.1 hi
  · exact le_rfl
  · exact le_of_not_lt fun hlt => h3 ⟨h, hlt⟩

lemma plasticityFold_eq (mat : ℤ) (sig : Mat3) (jp : ℚ) :
    plasticityFold mat sig jp =
      (Matrix.of fun i j =>
        if i = j then newSigma mat (sig j j) else sig i j,
       jp * (sig 0 0 / newSigma mat (sig 0 0)) *
         (sig 1 1 / newSigma mat (sig 1 1)) *
         (sig 2 2 / newSigma mat (sig 2 2)),
       1 * newSigma mat (sig 0 0) * newSigma mat (sig 1 1) *
         newSigma mat (sig 2 2)) := by
  have hfin : List.finRange 3 = [(0 : Fin 3), 1, 2] := by decide
  simp only [plasticityFold, hfin, List.foldl]
  simp only [plasticityStep, newSigma, Matrix.of_apply]
  norm_num
  refine ⟨?_, ?_, ?_⟩
  · funext i j
    fin_cases i <;> fin_cases j <;> simp
  · simp
  · simp

lemma sum_range3 (f : ℕ → ℚ) :
    ∑ i in Finset.range 3, f i = f 0 + f 1 + f 2 := by
  rw [Finset.sum_range_succ, Finset.sum_range_succ, Finset.sum_range_succ,
    Finset.sum_range_zero, zero_add]

lemma massContrib_total {pos : ℚ × ℚ × ℚ} (h : nbhdInBounds pos) :
    ∑ n in gridBox, massContrib pos n = p_mass := by
  obtain ⟨⟨h00, h01⟩, ⟨h10, h11⟩, h20, h21⟩ := h
  unfold massContrib
  rw [Finset.sum_comm]
  have hswap : ∀ i ∈ Finset.range 3,
      (∑ n in gridBox, ∑ j in Finset.range 3, ∑ k in Finset.range 3,
        if n = (baseOf pos.1 + (i : ℤ), baseOf pos.2.1 + (j : ℤ),
                baseOf pos.2.2 + (k : ℤ)) then
          wP2G i (fxOf pos.1) * wP2G j (fxOf pos.2.1) *
            wP2G k (fxOf pos.2.2) * p_mass
        else 0) =
      ∑ j in Finset.range 3, ∑ k in Finset.range 3,
        wP2G i (fxOf pos.1) * wP2G j (fxOf pos.2.1) *
          wP2G k (fxOf pos.2.2) * p_mass := by
    intro i hi
    rw [Finset.sum_comm]
    refine Finset.sum_congr rfl fun j hj => ?_
    rw [Finset.sum_comm]
    refine Finset.sum_congr rfl fun k hk => ?_
    have hmem : (baseOf pos.1 + (i : ℤ), baseOf pos.2.1 + (j : ℤ),
        baseOf pos.2.2 + (k : ℤ)) ∈ gridBox := by
      simp only [gridBox, Finset.mem_product, Finset.mem_Icc]
      simp only [Finset.mem_range] at hi hj hk
      omega
    rw [Finset.sum_ite_eq' gridBox
      (baseOf pos.1 + (i : ℤ), baseOf pos.2.1 + (j : ℤ),
        baseOf pos.2.2 + (k : ℤ))
      (fun _ => wP2G i (fxOf pos.1) * wP2G j (fxOf pos.2.1) *
        wP2G k (fxOf pos.2.2) * p_mass), if_pos hmem]
  rw [Finset.sum_congr rfl hswap]
  have h1 := wP2G_add_sum (fxOf pos.1)
  have h2 := wP2G_add_sum (fxOf pos.2.1)
  have h3 := wP2G_add_sum (fxOf pos.2.2)
  simp only [sum_range3]
  linear_combination
    ((wP2G 0 (fxOf pos.2.1) + wP2G 1 (fxOf pos.2.1) + wP2G 2 (fxOf pos.2.1)) *
      (wP2G 0 (fxOf pos.2.2) + wP2G 1 (fxOf pos.2.2) +
        wP2G 2 (fxOf pos.2.2)) * p_mass) * h1 +
    ((wP2G 0 (fxOf pos.2.2) + wP2G 1 (fxOf pos.2.2) +
      wP2G 2 (fxOf pos.2.2)) * p_mass) * h2 +
    p_mass * h3

lemma castInt_eq_floor {q : ℚ} (h : 0 ≤ q) : castInt q = ⌊q⌋ := by
  rw [castInt, Rat.floor_def]
  exact Int.tdiv_eq_ediv (Rat.num_nonneg.mpr h) (Int.ofNat_nonneg _)

lemma castInt_nonneg {q : ℚ} (h : 0 ≤ q) : 0 ≤ castInt q := by
  rw [castInt_eq_floor h]
  exact Int.floor_nonneg.mpr h

lemma castInt_le {q : ℚ} (h : 0 ≤ q) : (castInt q : ℚ) ≤ q := by
  rw [castInt_eq_floor h]
  exact Int.floor_le q

lemma go_ranges_partition (rng : ℕ → ℚ × ℚ × ℚ) (total : ℚ) (N : ℤ)
    (htot : 0 < total) (hN : 0 ≤ N) :
    ∀ (vols : List Volume), vols ≠ [] →
      (∀ v ∈ vols, v.isCube = true) →
      (∀ v ∈ vols, 0 ≤ v.volume) →
      ∀ (next_p : ℤ) (st : ℕ → Particle),
        ((next_p : ℚ) + (vols.map Volume.volume).sum / total * (N : ℚ)
          ≤ (N : ℚ)) →
        isPartition next_p
          (init_vols_go rng total N vols next_p st).2.1 N := by
  intro vols
  induction vols with
  | nil => intro hne; exact absurd rfl hne
  | cons v vs ih =>
    intro _ hcube hnn next_p st hsum
    have hv : v.isCube = true := hcube v (List.mem_cons_self v vs)
    cases v with
    | other w => simp [Volume.isCube] at hv
    | cube c =>
      have hshare : (0 : ℚ) ≤ c.volume / total * (N : ℚ) := by
        have h0 : (0 : ℚ) ≤ c.volume := hnn _ (List.mem_cons_self _ vs)
        have hNq : (0 : ℚ) ≤ (N : ℚ) := by exact_mod_cast hN
        positivity
      cases vs with
      | nil =>
        have hsml : (next_p : ℚ) + c.volume / total * (N : ℚ) ≤ (N : ℚ) := by
          simpa [Volume.volume] using hsum
        have hle : next_p ≤ N := by
          have hq : (next_p : ℚ) ≤ (N : ℚ) := by linarith
          exact_mod_cast hq
        simp only [init_vols_go, List.isEmpty_nil, ite_true, isPartition]
        refine ⟨trivial, by omega, by omega⟩
      | cons v2 vs2 =>
        have hcnt0 : 0 ≤ castInt (c.volume / total * (N : ℚ)) :=
          castInt_nonneg hshare
        have hcntle : (castInt (c.volume / total * (N : ℚ)) : ℚ) ≤
            c.volume / total * (N : ℚ) := castInt_le hshare
        simp only [init_vols_go, List.isEmpty_cons, Bool.false_eq_true,
          ite_false, isPartition]
        refine ⟨trivial, hcnt0, ?_⟩
        refine ih (by simp) (fun u hu => hcube u (List.mem_cons_of_mem _ hu))
          (fun u hu => hnn u (List.mem_cons_of_mem _ hu)) _ _ ?_
        have hsum' : (next_p : ℚ) +
            (c.volume + ((v2 :: vs2).map Volume.volume).sum) / total *
              (N : ℚ) ≤ (N : ℚ) := by
          simpa [Volume.volume] using hsum
        rw [add_div, add_mul] at hsum'
        push_cast
        linarith

lemma go_ranges_length (rng : ℕ → ℚ × ℚ × ℚ) (total : ℚ) (N : ℤ) :
    ∀ (vols : List Volume), (∀ v ∈ vols, v.isCube = true) →
      ∀ (next_p : ℤ) (st : ℕ → Particle),
        (init_vols_go rng total N vols next_p st).2.1.length =
          vols.length := by
  intro vols
  induction vols with
  | nil => intro _ next_p st; simp [init_vols_go]
  | cons v vs ih =>
    intro hcube next_p st
    have hv : v.isCube = true := hcube v (List.mem_cons_self v vs)
    cases v with
    | other w => simp [Volume.isCube] at hv
    | cube c =>
      simp only [init_vols_go, List.length_cons]
      rw [ih (fun u hu => hcube u (List.mem_cons_of_mem _ hu))]

lemma go_ranges_counts (rng : ℕ → ℚ × ℚ × ℚ) (total : ℚ) (N : ℤ)
    (htot : 0 < total) (hN : 0 ≤ N) :
    ∀ (vols : List Volume), vols ≠ [] →
      (∀ v ∈ vols, v.isCube = true) →
      (∀ v ∈ vols, 0 ≤ v.volume) →
      ∀ (next_p : ℤ) (st : ℕ → Particle),
        (init_vols_go rng total N vols next_p st).2.1.map Prod.snd =
          (vols.dropLast.map fun u => ⌊u.volume / total * (N : ℚ)⌋) ++
            [N - next_p -
              (vols.dropLast.map fun u =>
                ⌊u.volume / total * (N : ℚ)⌋).sum] := by
  intro vols
  induction vols with
  | nil => intro hne; exact absurd rfl hne
  | cons v vs ih =>
    intro _ hcube hnn next_p st
    have hv : v.isCube = true := hcube v (List.mem_cons_self v vs)
    cases v with
    | other w => simp [Volume.isCube] at hv
    | cube c =>
      have hshare : (0 : ℚ) ≤ c.volume / total * (N : ℚ) := by
        have h0 : (0 : ℚ) ≤ c.volume := hnn _ (List.mem_cons_self _ vs)
        have hNq : (0 : ℚ) ≤ (N : ℚ) := by exact_mod_cast hN
        positivity
      cases vs with
      | nil =>
        simp only [init_vols_go, List.isEmpty_nil, ite_true, List.map_cons,
          List.map_nil, List.dropLast_single, List.sum_nil, List.nil_append]
        simp [init_vols_go]
      | cons v2 vs2 =>
        have hfloor : castInt (c.volume / total * (N : ℚ)) =
            ⌊c.volume / total * (N : ℚ)⌋ := castInt_eq_floor hshare
        simp only [init_vols_go, List.isEmpty_cons, Bool.false_eq_true,
          ite_false, List.map_cons]
        rw [ih (by simp) (fun u hu => hcube u (List.mem_cons_of_mem _ hu))
          (fun u hu => hnn u (List.mem_cons_of_mem _ hu))]
        have hdrop : (Volume.cube c :: v2 :: vs2).dropLast =
            Volume.cube c :: (v2 :: vs2).dropLast := rfl
        rw [hdrop]
        simp only [List.map_cons, List.sum_cons, List.cons_append,
          List.cons.injEq]
        constructor
        · simpa [Volume.volume] using hfloor
        · congr 1
          rw [hfloor]
          simp only [Volume.volume, List.cons.injEq, and_true]
          omega

lemma go_error_on_other (rng : ℕ → ℚ × ℚ × ℚ) (total : ℚ) (N : ℤ) :
    ∀ (pre : List Volume), (∀ v ∈ pre, v.isCube = true) →
      ∀ (w : ℚ) (rest : List Volume) (next_p : ℤ) (st : ℕ → Particle),
        (init_vols_go rng total N (pre ++ Volume.other w :: rest) next_p
            st).2.2 = true ∧
        (init_vols_go rng total N (pre ++ Volume.other w :: rest) next_p
            st).1 = seedCubes rng total N pre next_p st := by
  intro pre
  induction pre with
  | nil =>
    intro _ w rest next_p st
    exact ⟨rfl, rfl⟩
  | cons v pre' ih =>
    intro hcube w rest next_p st
    have hv : v.isCube = true := hcube v (List.mem_cons_self v pre')
    cases v with
    | other u => simp [Volume.isCube] at hv
    | cube c =>
      have hne : (pre' ++ Volume.other w :: rest).isEmpty = false := by
        cases pre' <;> rfl
      have hne' : (List.append pre' (Volume.other w :: rest)).isEmpty =
          false := hne
      simp only [List.cons_append, init_vols_go, hne, hne',
        Bool.false_eq_true, ite_false, seedCubes]
      exact ih (fun u hu => hcube u (List.mem_cons_of_mem _ hu)) w rest _ _

lemma wG2P_add_sum (fx : ℚ) : wG2P 0 fx + wG2P 1 fx + wG2P 2 fx = 1 := by
  rw [← wP2G_eq_wG2P, ← wP2G_eq_wG2P, ← wP2G_eq_wG2P]
  exact wP2G_add_sum fx

lemma sum_wG2P_smul_const (f0 f1 f2 : ℚ) (c : ℚ × ℚ × ℚ) :
    (∑ i in Finset.range 3, ∑ j in Finset.range 3, ∑ k in Finset.range 3,
      (wG2P i f0 * wG2P j f1 * wG2P k f2) • c) = c := by
  simp only [← Finset.sum_smul]
  have hw : (∑ i in Finset.range 3, ∑ j in Finset.range 3,
      ∑ k in Finset.range 3, wG2P i f0 * wG2P j f1 * wG2P k f2) = 1 := by
    simp only [sum_range3]
    have h0 := wG2P_add_sum f0
    have h1 := wG2P_add_sum f1
    have h2 := wG2P_add_sum f2
    linear_combination
      ((wG2P 0 f1 + wG2P 1 f1 + wG2P 2 f1) *
        (wG2P 0 f2 + wG2P 1 f2 + wG2P 2 f2)) * h0 +
      (wG2P 0 f2 + wG2P 1 f2 + wG2P 2 f2) * h1 + h2
  rw [hw, one_smul]

/-! ## Claim theorems -/

/-- C5: for every fractional offset `fx`, the three quadratic B-spline
weights `w0 = 0.5*(1.5-fx)^2`, `w1 = 0.75-(fx-1)^2`, `w2 = 0.5*(fx-0.5)^2`
sum to 1 per axis, exactly over the exact-arithmetic embedding (hence
within floating tolerance in the float implementation), and the weight
formulas used by P2G (line 59) and G2P (line 126) are identical. -/
theorem weight_partition_unity :
    ∀ fx : ℚ, (wP2G 0 fx + wP2G 1 fx + wP2G 2 fx = 1) ∧
      ∀ i : ℕ, wP2G i fx = wG2P i fx :=
  fun fx => ⟨wP2G_add_sum fx, fun i => wP2G_eq_wG2P i fx⟩

/-- C9: the momentum step's division by mass, gravity increment and
boundary clamping run only for nodes with `mass > 0`; a node whose mass
is not positive is left entirely untouched, so a node that still holds
the zero vector written by the zero-out stage keeps it. -/
theorem grid_zero_mass_skip (g : ℚ) (I : ℤ × ℤ × ℤ) (m : ℚ)
    (mom : ℚ × ℚ × ℚ) (hm : ¬ 0 < m) :
    substep_grid_node g I m mom = mom ∧
    substep_grid_node g I m (substep_zero_out_v I) = substep_zero_out_v I := by
  constructor <;> simp [substep_grid_node, hm]

/-- Witness for C9 at a concrete zero-mass node. -/
theorem grid_zero_mass_skip_witness :
    (¬ (0 : ℚ) < 0) ∧
      (substep_grid_node 0 (5, 6, 7) 0 (1, 2, 3) = (1, 2, 3) ∧
        substep_grid_node 0 (5, 6, 7) 0 (substep_zero_out_v (5, 6, 7)) =
          substep_zero_out_v (5, 6, 7)) :=
  ⟨lt_irrefl 0, grid_zero_mass_skip 0 (5, 6, 7) 0 (1, 2, 3) (lt_irrefl 0)⟩

/-- C1 counterexample: the node with index `n_grid - bound = 125` on the
x axis lies in `[n_grid - bound, n_grid)`, yet the momentum step leaves
its outward-pointing (positive) x velocity untouched, because the code
clamps the upper side only for indices strictly greater than
`n_grid - bound`. -/
theorem boundary_claim_counterexample : ¬ boundaryClaimC1 := by
  intro h
  have h1 := (h 0 (125, 5, 5) 1 (1, 0, 0) one_pos).2.1
  have hidx : ((n_grid : ℤ) - bound ≤ 125 ∧ (125 : ℤ) < (n_grid : ℤ)) := by
    norm_num [n_grid, bound, quality]
  have hval : (substep_grid_node 0 (125, 5, 5) 1 (1, 0, 0)).1 = 1 := by
    simp only [substep_grid_node, one_pos, ite_true, clampAxis]
    norm_num [bound, n_grid, quality]
  rw [hval] at h1
  exact absurd (h1 hidx) (by norm_num)

/-- C1 amended: for nodes with positive mass, the low sides behave as
claimed (indices in `[0, bound)` end with a nonnegative component), but
on the high sides only nodes with index strictly greater than
`n_grid - bound` (that is, in `(n_grid - bound, n_grid)`) are clamped to
a nonpositive component; the node at exactly `n_grid - bound` is not
clamped. -/
theorem boundary_containment_amended (g : ℚ) (I : ℤ × ℤ × ℤ) (m : ℚ)
    (mom : ℚ × ℚ × ℚ) (hm : 0 < m) :
    (I.1 < bound → 0 ≤ (substep_grid_node g I m mom).1) ∧
    ((n_grid : ℤ) - bound < I.1 → (substep_grid_node g I m mom).1 ≤ 0) ∧
    (I.2.1 < bound → 0 ≤ (substep_grid_node g I m mom).2.1) ∧
    ((n_grid : ℤ) - bound < I.2.1 → (substep_grid_node g I m mom).2.1 ≤ 0) ∧
    (I.2.2 < bound → 0 ≤ (substep_grid_node g I m mom).2.2) ∧
    ((n_grid : ℤ) - bound < I.2.2 → (substep_grid_node g I m mom).2.2 ≤ 0) := by
  simp only [substep_grid_node, hm, ite_true]
  exact ⟨fun h => clampAxis_lower _ h, fun h => clampAxis_upper _ h,
    fun h => clampAxis_lower _ h, fun h => clampAxis_upper _ h,
    fun h => clampAxis_lower _ h, fun h => clampAxis_upper _ h⟩

/-- Witness for the amended C1 at a concrete positive-mass node. -/
theorem boundary_containment_amended_witness :
    (0 : ℚ) < 1 ∧
      (((1 : ℤ) < bound → 0 ≤ (substep_grid_node 0 (1, 126, 64) 1 (-5, 7, 3)).1) ∧
      ((n_grid : ℤ) - bound < 1 →
        (substep_grid_node 0 (1, 126, 64) 1 (-5, 7, 3)).1 ≤ 0) ∧
      ((126 : ℤ) < bound →
        0 ≤ (substep_grid_node 0 (1, 126, 64) 1 (-5, 7, 3)).2.1) ∧
      ((n_grid : ℤ) - bound < 126 →
        (substep_grid_node 0 (1, 126, 64) 1 (-5, 7, 3)).2.1 ≤ 0) ∧
      ((64 : ℤ) < bound →
        0 ≤ (substep_grid_node 0 (1, 126, 64) 1 (-5, 7, 3)).2.2) ∧
      ((n_grid : ℤ) - bound < 64 →
        (substep_grid_node 0 (1, 126, 64) 1 (-5, 7, 3)).2.2 ≤ 0)) :=
  ⟨one_pos, boundary_containment_amended 0 (1, 126, 64) 1 (-5, 7, 3) one_pos⟩

/-- C7: during the P2G constitutive update of an active non-water
particle, writing `(U, S, V)` for the oracle decomposition of the
elastically predicted `F1 = (I + dt*C) @ F`: for SNOW each singular value
`S d d` is replaced by `clamp(S d d, 1-2.5e-2, 1+4.5e-3)`, for JELLY it
is kept unchanged (`newSigma`); `Jp` is multiplied by `σ_d / new_σ_d` for
each `d`; `F` is reconstructed as `U * Σ' * Vᵀ` from the replaced
diagonal for SNOW while JELLY keeps the unclamped `F1`; and the loop's
`J` is the product of the replaced values. -/
theorem snow_plasticity_clamp (hexp : ℚ → ℚ)
    (svd : Mat3 → Mat3 × Mat3 × Mat3) (p : Particle) (U S V : Mat3)
    (hused : p.used = true)
    (hmat : p.material = SNOW ∨ p.material = JELLY)
    (hsvd : svd (((1 : Mat3) + dt • p.C) * p.F) = (U, S, V)) :
    (substep_p2g_point hexp svd p).1.F =
      (if p.material = SNOW then
        U * (Matrix.of fun i j =>
          if i = j then newSigma p.material (S j j) else S i j) * V.transpose
      else ((1 : Mat3) + dt • p.C) * p.F) ∧
    (substep_p2g_point hexp svd p).1.Jp =
      p.Jp * (S 0 0 / newSigma p.material (S 0 0)) *
        (S 1 1 / newSigma p.material (S 1 1)) *
        (S 2 2 / newSigma p.material (S 2 2)) ∧
    (plasticityFold p.material S p.Jp).2.2 =
      1 * newSigma p.material (S 0 0) * newSigma p.material (S 1 1) *
        newSigma p.material (S 2 2) ∧
    (p.material = SNOW → ∀ d : Fin 3,
      newSigma p.material (S d d) =
        min (max (S d d) (1 - 2.5e-2)) (1 + 4.5e-3)) ∧
    (p.material = JELLY → (∀ d : Fin 3, newSigma p.material (S d d) = S d d) ∧
      (substep_p2g_point hexp svd p).1.F = ((1 : Mat3) + dt • p.C) * p.F) := by
  have hW : ¬ p.material = WATER := by
    rcases hmat with hs | hj
    · rw [hs]; simp [SNOW, WATER]
    · rw [hj]; simp [JELLY, WATER]
  have hSJ : ¬ (JELLY = SNOW) := by simp [JELLY, SNOW]
  simp only [substep_p2g_point, hused, ite_true, substep_p2g_update, hW,
    ne_eq, not_false_iff, ite_true, hsvd, plasticityFold_eq]
  refine ⟨?_, by ring_nf, by ring_nf, ?_, ?_⟩
  · trivial
  · intro hs d
    simp [newSigma, hs]
  · intro hj
    constructor
    · intro d
      simp [newSigma, hj, hSJ]
    · rw [if_neg (by rw [hj]; exact hSJ)]

/-- Witness for C7 at a concrete SNOW particle with the identity
decomposition. -/
theorem snow_plasticity_clamp_witness :
    (wSnowP.used = true ∧ (wSnowP.material = SNOW ∨ wSnowP.material = JELLY) ∧
      idSvd (((1 : Mat3) + dt • wSnowP.C) * wSnowP.F) = (1, 1, 1)) ∧
    ((substep_p2g_point oneExp idSvd wSnowP).1.F =
      (if wSnowP.material = SNOW then
        (1 : Mat3) * (Matrix.of fun i j =>
          if i = j then newSigma wSnowP.material ((1 : Mat3) j j)
          else (1 : Mat3) i j) * (1 : Mat3).transpose
      else ((1 : Mat3) + dt • wSnowP.C) * wSnowP.F) ∧
    (substep_p2g_point oneExp idSvd wSnowP).1.Jp =
      wSnowP.Jp * ((1 : Mat3) 0 0 / newSigma wSnowP.material ((1 : Mat3) 0 0)) *
        ((1 : Mat3) 1 1 / newSigma wSnowP.material ((1 : Mat3) 1 1)) *
        ((1 : Mat3) 2 2 / newSigma wSnowP.material ((1 : Mat3) 2 2)) ∧
    (plasticityFold wSnowP.material (1 : Mat3) wSnowP.Jp).2.2 =
      1 * newSigma wSnowP.material ((1 : Mat3) 0 0) *
        newSigma wSnowP.material ((1 : Mat3) 1 1) *
        newSigma wSnowP.material ((1 : Mat3) 2 2) ∧
    (wSnowP.material = SNOW → ∀ d : Fin 3,
      newSigma wSnowP.material ((1 : Mat3) d d) =
        min (max ((1 : Mat3) d d) (1 - 2.5e-2)) (1 + 4.5e-3)) ∧
    (wSnowP.material = JELLY →
      (∀ d : Fin 3, newSigma wSnowP.material ((1 : Mat3) d d) = (1 : Mat3) d d) ∧
      (substep_p2g_point oneExp idSvd wSnowP).1.F =
        ((1 : Mat3) + dt • wSnowP.C) * wSnowP.F)) :=
  ⟨⟨rfl, Or.inl rfl, rfl⟩,
    snow_plasticity_clamp oneExp idSvd wSnowP 1 1 1 rfl (Or.inl rfl) rfl⟩

/-- C8: the P2G constitutive branch for an active WATER particle leaves
the deformation gradient unchanged and produces
`affine = I * stress + p_mass * C` with the scalar
`stress = -dt * 4 * E * p_vol * (Jp - 1) * inv_dx^2`; combined with G2P
never writing `F`, the particle's `F` is unchanged across the whole
substep (so it stays at its initialized identity forever). -/
theorem water_constitutive (hexp : ℚ → ℚ)
    (svd : Mat3 → Mat3 × Mat3 × Mat3) (gv : ℤ × ℤ × ℤ → ℚ × ℚ × ℚ)
    (p : Particle) (hused : p.used = true) (hmat : p.material = WATER) :
    (substep_p2g_point hexp svd p).1.F = p.F ∧
    (substep_p2g_point hexp svd p).2 =
      (-dt * 4 * E * p_vol * (p.Jp - 1) * inv_dx * inv_dx) • (1 : Mat3) +
        p_mass • p.C ∧
    (substep_g2p_point gv (substep_p2g_point hexp svd p).1).F = p.F := by
  have hW : ¬ p.material ≠ WATER := by simp [hmat]
  refine ⟨?_, ?_, ?_⟩
  · simp only [substep_p2g_point, hused, ite_true, substep_p2g_update, hW,
      ite_false]
  · simp only [substep_p2g_point, hused, ite_true, substep_p2g_update, hW,
      ite_false]
  · simp only [substep_p2g_point, hused, ite_true, substep_p2g_update, hW,
      ite_false, substep_g2p_point]

/-- Witness for C8 at the concrete WATER particle. -/
theorem water_constitutive_witness :
    (wWaterP.used = true ∧ wWaterP.material = WATER) ∧
    ((substep_p2g_point oneExp idSvd wWaterP).1.F = wWaterP.F ∧
    (substep_p2g_point oneExp idSvd wWaterP).2 =
      (-dt * 4 * E * p_vol * (wWaterP.Jp - 1) * inv_dx * inv_dx) • (1 : Mat3) +
        p_mass • wWaterP.C ∧
    (substep_g2p_point substep_zero_out_v
        (substep_p2g_point oneExp idSvd wWaterP).1).F = wWaterP.F) :=
  ⟨⟨rfl, rfl⟩,
    water_constitutive oneExp idSvd substep_zero_out_v wWaterP rfl rfl⟩

/-- C10: for an active JELLY particle whose oracle singular values are
all nonzero (as those of an invertible `F` are), the P2G constitutive
update leaves `Jp` unchanged: the clamp applies only to SNOW, so every
factor `σ_d / new_σ_d` is exactly 1. -/
theorem jelly_Jp_unchanged (hexp : ℚ → ℚ)
    (svd : Mat3 → Mat3 × Mat3 × Mat3) (p : Particle) (U S V : Mat3)
    (hused : p.used = true) (hmat : p.material = JELLY)
    (hsvd : svd (((1 : Mat3) + dt • p.C) * p.F) = (U, S, V))
    (hsig : ∀ d : Fin 3, S d d ≠ 0) :
    (substep_p2g_point hexp svd p).1.Jp = p.Jp := by
  have hW : ¬ p.material = WATER := by rw [hmat]; simp [JELLY, WATER]
  simp only [substep_p2g_point, hused, ite_true, substep_p2g_update, hW,
    ne_eq, not_false_iff, ite_true, hsvd, plasticityFold_eq]
  have hns : ∀ d : Fin 3, newSigma p.material (S d d) = S d d := by
    intro d
    simp [newSigma, hmat, JELLY, SNOW]
  rw [hns 0, hns 1, hns 2, div_self (hsig 0), div_self (hsig 1),
    div_self (hsig 2)]
  ring

/-- Witness for C10 at the concrete JELLY particle with the identity
decomposition (all singular values 1). -/
theorem jelly_Jp_unchanged_witness :
    (wJellyP.used = true ∧ wJellyP.material = JELLY ∧
      idSvd (((1 : Mat3) + dt • wJellyP.C) * wJellyP.F) = (1, 1, 1) ∧
      ∀ d : Fin 3, (1 : Mat3) d d ≠ 0) ∧
    (substep_p2g_point oneExp idSvd wJellyP).1.Jp = wJellyP.Jp :=
  ⟨⟨rfl, rfl, rfl, by decide⟩,
    jelly_Jp_unchanged oneExp idSvd wJellyP 1 1 1 rfl rfl rfl (by decide)⟩

/-- C4: after P2G on the zeroed grid, provided every active particle's
27 neighbor nodes lie inside `[0, n_grid)^3`, the total grid mass over
the grid equals `(number of active particles) * p_mass`, exactly in the
exact-arithmetic embedding, for every particle configuration (the mass
scatter does not depend on materials). -/
theorem mass_conservation (ps : List Particle)
    (h : ∀ p ∈ ps, p.used = true → nbhdInBounds p.x) :
    ∑ n in gridBox, substep_p2g_mass ps n =
      ((ps.filter fun p => p.used).length : ℚ) * p_mass := by
  induction ps with
  | nil => simp [substep_p2g_mass, substep_zero_out_m]
  | cons p ps ih =>
    have htail := ih fun q hq hu => h q (List.mem_cons_of_mem _ hq) hu
    simp only [substep_p2g_mass]
    rw [Finset.sum_add_distrib, htail]
    by_cases hu : p.used
    · have hmem : nbhdInBounds p.x := h p (List.mem_cons_self _ _) hu
      simp only [hu, ite_true]
      rw [massContrib_total hmem]
      simp only [List.filter_cons, hu, ite_true, List.length_cons]
      push_cast
      ring
    · have hu' : p.used = false := by simpa using hu
      simp only [hu', Bool.false_eq_true, ite_false, Finset.sum_const_zero,
        add_zero, List.filter_cons]

/-- Witness for C4 on the one-particle configuration `[wCenterP]`. -/
theorem mass_conservation_witness :
    (∀ p ∈ [wCenterP], p.used = true → nbhdInBounds p.x) ∧
    ∑ n in gridBox, substep_p2g_mass [wCenterP] n =
      (([wCenterP].filter fun p => p.used).length : ℚ) * p_mass := by
  have hbase : baseOf ((1 : ℚ)/2) = 63 := by
    have harg : ((1 : ℚ)/2 * inv_dx - 0.5) = 127/2 := by
      norm_num [inv_dx, dx, n_grid, quality]
    rw [baseOf, harg, castInt]
    norm_num
    decide
  have hin : ∀ p ∈ [wCenterP], p.used = true → nbhdInBounds p.x := by
    intro p hp _
    simp only [List.mem_singleton] at hp
    subst hp
    refine ⟨?_, ?_, ?_⟩ <;>
      simp only [wCenterP, hbase] <;> norm_num [n_grid, quality]
  exact ⟨hin, mass_conservation [wCenterP] hin⟩

/-- C3 evaluation at the failing input: with the constant leftward grid
field, the G2P step advects the centered particle to `x = -199/2`, far
outside the unit domain, and its interpolation base index on the x axis
is negative — no clamping to the grid bounds (and no reporting) occurs
anywhere in `substep_g2p`. -/
theorem g2p_out_of_domain_unclamped :
    (substep_g2p_point escGrid wCenterP).x.1 =
      wCenterP.x.1 + dt * (-1000000) ∧
    (substep_g2p_point escGrid wCenterP).x.1 = -199/2 ∧
    baseOf (substep_g2p_point escGrid wCenterP).x.1 < 0 := by
  have hx : (substep_g2p_point escGrid wCenterP).x.1 =
      wCenterP.x.1 + dt * (-1000000) := by
    simp only [substep_g2p_point, escGrid,
      show wCenterP.used = true from rfl, ite_true, sum_wG2P_smul_const]
  have hx2 : (substep_g2p_point escGrid wCenterP).x.1 = -199/2 := by
    rw [hx]
    norm_num [wCenterP, dt]
  refine ⟨hx, hx2, ?_⟩
  rw [hx2]
  have harg : ((-199 : ℚ)/2 * inv_dx - 0.5) = -25473/2 := by
    norm_num [inv_dx, dx, n_grid, quality]
  rw [baseOf, harg, castInt]
  norm_num
  decide

/-- C6: for a nonempty list of cuboid specs (nonnegative volumes) with
positive total volume, `init_vols` passes one `(first, count)` range per
spec to `init_cube_vol`; the ranges chain contiguously from 0 with
nonnegative counts and end exactly at `N` (no index unassigned, none
assigned twice, last count nonnegative); each non-last count is the
floor of the spec's proportional share of `N` and the last spec absorbs
the remainder. -/
theorem init_vols_partition (rng : ℕ → ℚ × ℚ × ℚ) (N : ℕ)
    (vols : List Volume) (st : ℕ → Particle)
    (hne : vols ≠ [])
    (hcube : ∀ v ∈ vols, v.isCube = true)
    (hnn : ∀ v ∈ vols, 0 ≤ v.volume)
    (hpos : 0 < (vols.map Volume.volume).sum) :
    (init_vols rng N vols st).2.1.length = vols.length ∧
    isPartition 0 (init_vols rng N vols st).2.1 (N : ℤ) ∧
    (init_vols rng N vols st).2.1.map Prod.snd =
      claimCounts ((vols.map Volume.volume).sum) (N : ℤ) vols := by
  have hN : (0 : ℤ) ≤ (N : ℤ) := Int.ofNat_nonneg N
  refine ⟨?_, ?_, ?_⟩
  · exact go_ranges_length rng _ _ vols hcube 0 _
  · refine go_ranges_partition rng _ _ hpos hN vols hne hcube hnn 0 _ ?_
    rw [div_self (ne_of_gt hpos)]
    norm_num
  · rw [init_vols, go_ranges_counts rng _ _ hpos hN vols hne hcube hnn 0 _]
    cases vols with
    | nil => exact absurd rfl hne
    | cons v vs =>
      simp only [claimCounts]
      congr 2

/-- Witness for C6 on the Water/Snow/Jelly preset with the full particle
budget `n_particles`. -/
theorem init_vols_partition_witness :
    (wVols ≠ [] ∧ (∀ v ∈ wVols, v.isCube = true) ∧
      (∀ v ∈ wVols, 0 ≤ v.volume) ∧
      0 < (wVols.map Volume.volume).sum) ∧
    ((init_vols wRng n_particles wVols (fun _ => wCenterP)).2.1.length =
      wVols.length ∧
    isPartition 0 (init_vols wRng n_particles wVols
      (fun _ => wCenterP)).2.1 (n_particles : ℤ) ∧
    (init_vols wRng n_particles wVols (fun _ => wCenterP)).2.1.map
        Prod.snd =
      claimCounts ((wVols.map Volume.volume).sum) (n_particles : ℤ)
        wVols) := by
  have hne : wVols ≠ [] := by simp [wVols]
  have hcube : ∀ v ∈ wVols, v.isCube = true := by decide
  have hnn : ∀ v ∈ wVols, 0 ≤ v.volume := by
    intro v hv
    fin_cases hv <;> norm_num [Volume.volume, CubeVolume.volume]
  have hpos : 0 < (wVols.map Volume.volume).sum := by
    norm_num [wVols, Volume.volume, CubeVolume.volume]
  exact ⟨⟨hne, hcube, hnn, hpos⟩,
    init_vols_partition wRng n_particles wVols (fun _ => wCenterP)
      hne hcube hnn hpos⟩

/-- C2 amended: when `init_vols` is given cube specs followed by an
unsupported (non-cube) spec, the call raises, and the state left behind
is the fully reset (`set_all_unused`) state with every cube spec
preceding the unsupported one already seeded — partially seeded whenever
the unsupported spec is not first. -/
theorem init_vols_error_partial_seed (rng : ℕ → ℚ × ℚ × ℚ) (N : ℕ)
    (st : ℕ → Particle) (pre rest : List Volume) (w : ℚ)
    (hcube : ∀ v ∈ pre, v.isCube = true) :
    (init_vols rng N (pre ++ Volume.other w :: rest) st).2.2 = true ∧
    (init_vols rng N (pre ++ Volume.other w :: rest) st).1 =
      seedCubes rng
        (((pre ++ Volume.other w :: rest).map Volume.volume).sum)
        (N : ℤ) pre 0 (set_all_unused N st) :=
  go_error_on_other rng
    (((pre ++ Volume.other w :: rest).map Volume.volume).sum) (N : ℤ)
    pre hcube w rest 0 (set_all_unused N st)

/-- Witness for the amended C2: one cube before the unsupported spec. -/
theorem init_vols_error_partial_seed_witness :
    (∀ v ∈ [Volume.cube cexCube], v.isCube = true) ∧
    ((init_vols wRng 4 ([Volume.cube cexCube] ++ Volume.other 2 :: [])
        cexPrior).2.2 = true ∧
    (init_vols wRng 4 ([Volume.cube cexCube] ++ Volume.other 2 :: [])
        cexPrior).1 =
      seedCubes wRng
        ((([Volume.cube cexCube] ++ Volume.other 2 :: []).map
          Volume.volume).sum)
        ((4 : ℕ) : ℤ) [Volume.cube cexCube] 0 (set_all_unused 4 cexPrior)) :=
  ⟨by decide,
    init_vols_error_partial_seed wRng 4 cexPrior [Volume.cube cexCube] [] 2
      (by decide)⟩

/-- C2 counterexample: on `cexVols` (cube, unsupported, cube) with
budget 4 and the all-seeded prior state, `init_vols` raises while leaving
particle 0 seeded by the first cube and particle 1 unseeded: the state
is neither the untouched prior state nor the known-empty reset state —
it is partially seeded. -/
theorem init_vols_partial_seed_counterexample :
    (init_vols wRng 4 cexVols cexPrior).2.2 = true ∧
    ((init_vols wRng 4 cexVols cexPrior).1 0).used = true ∧
    ((init_vols wRng 4 cexVols cexPrior).1 1).used = false ∧
    (init_vols wRng 4 cexVols cexPrior).1 ≠ cexPrior ∧
    (init_vols wRng 4 cexVols cexPrior).1 ≠ set_all_unused 4 cexPrior := by
  have h := go_error_on_other wRng ((cexVols.map Volume.volume).sum)
    ((4 : ℕ) : ℤ) [Volume.cube cexCube] (by decide) 2 [Volume.cube cexCube2]
    0 (set_all_unused 4 cexPrior)
  have happ : [Volume.cube cexCube] ++ Volume.other 2 ::
      [Volume.cube cexCube2] = cexVols := rfl
  rw [happ] at h
  have herr : (init_vols wRng 4 cexVols cexPrior).2.2 = true := h.1
  have hstate : (init_vols wRng 4 cexVols cexPrior).1 =
      seedCubes wRng ((cexVols.map Volume.volume).sum) ((4 : ℕ) : ℤ)
        [Volume.cube cexCube] 0 (set_all_unused 4 cexPrior) := h.2
  have htot : ((cexVols.map Volume.volume).sum) = 4 := by
    norm_num [cexVols, Volume.volume, CubeVolume.volume, cexCube, cexCube2]
  have hcnt : castInt (cexCube.volume / ((cexVols.map Volume.volume).sum) *
      ((((4 : ℕ) : ℤ)) : ℚ)) = 1 := by
    rw [htot]
    have harg : (cexCube.volume / (4 : ℚ) * ((((4 : ℕ) : ℤ)) : ℚ)) = 1 := by
      norm_num [cexCube, CubeVolume.volume]
    rw [harg, castInt]
    norm_num
  have hu0 : ((init_vols wRng 4 cexVols cexPrior).1 0).used = true := by
    rw [hstate]
    simp only [seedCubes, hcnt]
    norm_num [init_cube_vol]
  have hu1 : ((init_vols wRng 4 cexVols cexPrior).1 1).used = false := by
    rw [hstate]
    simp only [seedCubes, hcnt]
    norm_num [init_cube_vol, set_all_unused]
  refine ⟨herr, hu0, hu1, ?_, ?_⟩
  · intro hEq
    have h1 : ((init_vols wRng 4 cexVols cexPrior).1 1).used =
        (cexPrior 1).used := by rw [hEq]
    rw [hu1] at h1
    exact Bool.false_ne_true h1
  · intro hEq
    have h0 : ((init_vols wRng 4 cexVols cexPrior).1 0).used =
        (set_all_unused 4 cexPrior 0).used := by rw [hEq]
    rw [hu0] at h0
    have : (set_all_unused 4 cexPrior 0).used = false := by
      norm_num [set_all_unused]
    rw [this] at h0
    exact Bool.noConfusion h0

end MPM3D
